import Mathlib

/-!
Verification development for the workflow automation engine in
`backend/app/workflow_engine.py`.

The engine operates on untyped Python data (nested dicts/lists produced by
JSON-ish workflow definitions and trigger contexts).  We shallowly embed those
values as the inductive `Val` below (a mutual inductive so that every function
on it is structurally recursive and kernel-reducible).  Impure dependencies of
the engine (the `re` regex module, the wall clock, the side-effecting action
handlers) are abstracted as an `Oracles` record; Python exceptions are embedded
as `Except` results and the source's `try/except` blocks become explicit
handling of the `error` constructor.
-/

set_option autoImplicit false

namespace WorkflowEngine

-- Embedded Python value: `None`, `bool`, `int`, `str`, `list`, `dict`
-- (dicts in the engine always have string keys).  Python floats do not occur
-- in the engine's data paths we model (numbers in workflow JSON are embedded
-- as `int` or numeric `str`); `float(...)` conversions are modelled by
-- `pyFloat` into `Rat`.
mutual
inductive Val where
  | none : Val
  | bool : Bool → Val
  | int : Int → Val
  | str : String → Val
  | list : ValList → Val
  | dict : ValDict → Val

inductive ValList where
  | nil : ValList
  | cons : Val → ValList → ValList

inductive ValDict where
  | nil : ValDict
  | cons : String → Val → ValDict → ValDict
end

/-- Convert an embedded Python list to a Lean list of its elements. -/
def ValList.toList : ValList → List Val
  | .nil => []
  | .cons v tl => v :: tl.toList

/-- Build an embedded Python list from a Lean list (literal helper). -/
def ValList.ofList : List Val → ValList
  | [] => .nil
  | v :: tl => .cons v (ValList.ofList tl)

/-- Build an embedded Python dict from a Lean association list (literal
helper; Python dicts have unique keys, which all our literals respect). -/
def ValDict.ofList : List (String × Val) → ValDict
  | [] => .nil
  | (k, v) :: tl => .cons k v (ValDict.ofList tl)

/-- Python `d[k]` / `k in d` support: first (only) binding of `k`. -/
def ValDict.lookup : ValDict → String → Option Val
  | .nil, _ => Option.none
  | .cons k v tl, key => if k = key then some v else tl.lookup key

/-- Python `d.get(k, default)`. -/
def pyGetD (kvs : ValDict) (k : String) (d : Val) : Val :=
  (kvs.lookup k).getD d

/-- The keys of an embedded dict, in insertion order (Python iteration order). -/
def ValDict.keys : ValDict → List String
  | .nil => []
  | .cons k _ tl => k :: tl.keys

/-- Python truthiness (`bool(v)`) for the embedded values. -/
def pyTruthy : Val → Bool
  | .none => false
  | .bool b => b
  | .int n => decide (n ≠ 0)
  | .str s => decide (s ≠ "")
  | .list .nil => false
  | .list _ => true
  | .dict .nil => false
  | .dict _ => true

/-- The characters `{` and `}` (written via code points to keep the source
free of brace literals inside code). -/
def lbrace : Char := Char.ofNat 123

def rbrace : Char := Char.ofNat 125

/-- Python type name, for the text of `TypeError`/`AttributeError` messages. -/
def typeName : Val → String
  | .none => "NoneType"
  | .bool _ => "bool"
  | .int _ => "int"
  | .str _ => "str"
  | .list _ => "list"
  | .dict _ => "dict"

/-- Decimal digits of a natural number (helper for `pyStr` of ints). -/
def pyStrInt (n : Int) : String := toString n

-- Python `str(v)` on embedded values.  Containers render as their `repr`
-- (single-quoted strings); string escaping inside `repr` is not modelled
-- (the engine never stringifies containers on the specified paths).
mutual
def pyStr : Val → String
  | .none => "None"
  | .bool true => "True"
  | .bool false => "False"
  | .int n => pyStrInt n
  | .str s => s
  | .list xs => "[" ++ pyReprList xs ++ "]"
  | .dict kvs =>
      String.singleton lbrace ++ pyReprDict kvs ++ String.singleton rbrace

/-- Python `repr(v)` as used by container `str`. -/
def pyRepr : Val → String
  | .str s => "\x27" ++ s ++ "\x27"
  | .none => "None"
  | .bool true => "True"
  | .bool false => "False"
  | .int n => pyStrInt n
  | .list xs => "[" ++ pyReprList xs ++ "]"
  | .dict kvs =>
      String.singleton lbrace ++ pyReprDict kvs ++ String.singleton rbrace

def pyReprList : ValList → String
  | .nil => ""
  | .cons v .nil => pyRepr v
  | .cons v tl => pyRepr v ++ ", " ++ pyReprList tl

def pyReprDict : ValDict → String
  | .nil => ""
  | .cons k v .nil => "\x27" ++ k ++ "\x27: " ++ pyRepr v
  | .cons k v tl => "\x27" ++ k ++ "\x27: " ++ pyRepr v ++ ", " ++ pyReprDict tl
end

/-- Python `str.lower()`.  Modelled with Lean's ASCII `Char.toLower`; the
engine's data is ASCII in all specified behaviors. -/
def pyLower (s : String) : String := String.mk (s.data.map Char.toLower)

/-- The whitespace stripped by Python `str.strip()` / ignored by `float()`:
tab, LF, VT, FF, CR, space. -/
def isPySpace (c : Char) : Bool :=
  decide (c.toNat = 9 ∨ c.toNat = 10 ∨ c.toNat = 11 ∨ c.toNat = 12 ∨
          c.toNat = 13 ∨ c.toNat = 32)

/-- Python `str.strip()` on a character list. -/
def pyTrimChars (cs : List Char) : List Char :=
  ((cs.dropWhile isPySpace).reverse.dropWhile isPySpace).reverse

/-- Split a character list on a separator character — Python
`str.split(sep)` semantics (`"".split(".") = [""]`, empty fields kept). -/
def splitCharsOn (sep : Char) : List Char → List (List Char)
  | [] => [[]]
  | c :: rest =>
    let r := splitCharsOn sep rest
    if c = sep then [] :: r
    else
      match r with
      | h :: t => (c :: h) :: t
      | [] => [[c]]

/-- Inner walk of `_get_nested_value`: descend one dotted-path key at a time;
a missing key or a non-dict intermediate yields Python `None`. -/
def getNestedGo : Val → List String → Val
  | cur, [] => cur
  | cur, k :: ks =>
    match cur with
    | .dict kvs =>
      match kvs.lookup k with
      | some v => getNestedGo v ks
      | Option.none => Val.none
    | _ => Val.none

/-- Model of `WorkflowEngine._get_nested_value(data, field)`: split `field` on `"."`
and walk `data`. -/
def getNested (data : Val) (field : String) : Val :=
  getNestedGo data ((splitCharsOn (Char.ofNat 46) field.data).map String.mk)

/-- Numeric value of a list of decimal digit characters. -/
def digitsToNat (cs : List Char) : Nat :=
  cs.foldl (fun acc c => acc * 10 + (c.toNat - 48)) 0

/-- Parse the optional exponent suffix of a Python float literal
(`e`/`E`, optional sign, one or more digits, end of string). -/
def parseExpPart : List Char → Option Int
  | [] => some 0
  | c :: rest =>
    if c = 'e' ∨ c = 'E' then
      let (neg, rest1) :=
        match rest with
        | d :: tl => if d = '-' then (true, tl) else if d = '+' then (false, tl) else (false, rest)
        | [] => (false, rest)
      let ds := rest1.takeWhile Char.isDigit
      if ds.isEmpty ∨ ¬ (rest1.dropWhile Char.isDigit).isEmpty then Option.none
      else some (if neg then -(digitsToNat ds : Int) else (digitsToNat ds : Int))
    else Option.none

/-- Ten to the integer power `e`, as a rational. -/
def ratPow10 (e : Int) : Rat :=
  if 0 ≤ e then ((10 : Rat) ^ e.toNat) else 1 / ((10 : Rat) ^ (-e).toNat)

/-- Parse a (whitespace-stripped) Python float literal: optional sign,
decimal digits with optional fraction, optional exponent.  `inf`/`nan`/
underscore separators are not modelled (they never appear in the engine's
workflow data). -/
def parseFloatChars (cs : List Char) : Option Rat :=
  let (neg, cs1) :=
    match cs with
    | c :: rest => if c = '-' then (true, rest) else if c = '+' then (false, rest) else (false, cs)
    | [] => (false, cs)
  let ip := cs1.takeWhile Char.isDigit
  let cs2 := cs1.dropWhile Char.isDigit
  let (fp, cs3) :=
    match cs2 with
    | c :: rest =>
      if c = Char.ofNat 46 then (rest.takeWhile Char.isDigit, rest.dropWhile Char.isDigit)
      else ([], cs2)
    | [] => ([], cs2)
  if ip.isEmpty ∧ fp.isEmpty then Option.none
  else
    match parseExpPart cs3 with
    | Option.none => Option.none
    | some e =>
      let mant : Rat :=
        (digitsToNat ip : Rat) + (digitsToNat fp : Rat) / ((10 : Rat) ^ fp.length)
      let v := mant * ratPow10 e
      some (if neg then -v else v)

/-- Python `float(v)`: numbers pass through, strings are stripped and parsed,
everything else (`None`, lists, dicts) raises `TypeError` — modelled as
`Option.none`, matching the `except (ValueError, TypeError)` handlers in the
engine. -/
def pyFloat : Val → Option Rat
  | .int n => some (n : Rat)
  | .bool b => some (if b then 1 else 0)
  | .str s => parseFloatChars (pyTrimChars s.data)
  | _ => Option.none

/-- Parse a (whitespace-stripped) Python int literal: optional sign, digits. -/
def parseIntChars (cs : List Char) : Option Int :=
  let (neg, cs1) :=
    match cs with
    | c :: rest => if c = '-' then (true, rest) else if c = '+' then (false, rest) else (false, cs)
    | [] => (false, cs)
  let ds := cs1.takeWhile Char.isDigit
  if ds.isEmpty ∨ ¬ (cs1.dropWhile Char.isDigit).isEmpty then Option.none
  else some (if neg then -(digitsToNat ds : Int) else (digitsToNat ds : Int))

/-- Python `int(v)` as used for `start_hour`/`end_hour`: ints and bools pass
through, strings parse as integer literals, everything else raises
(`Option.none`). -/
def pyInt : Val → Option Int
  | .int n => some n
  | .bool b => some (if b then 1 else 0)
  | .str s => parseIntChars (pyTrimChars s.data)
  | _ => Option.none

/-- The closed enumeration `WorkflowAction` from the source. -/
inductive WAction where
  | send_sms | send_email | create_contact | create_event
  | create_task | update_contact | webhook | delay

/-- Model of `WorkflowAction(action_type)` composed with the membership test
`action_type in [e.value for e in WorkflowAction]`: a string equal to one of
the eight enum values maps to its member; anything else (including non-string
values, which compare unequal to every enum value) is unknown. -/
def findAction : Val → Option WAction
  | .str s =>
    if s = "send_sms" then some .send_sms
    else if s = "send_email" then some .send_email
    else if s = "create_contact" then some .create_contact
    else if s = "create_event" then some .create_event
    else if s = "create_task" then some .create_task
    else if s = "update_contact" then some .update_contact
    else if s = "webhook" then some .webhook
    else if s = "delay" then some .delay
    else Option.none
  | _ => Option.none

/-- The impure dependencies of the engine, abstracted:
`regexSearch pat subj` models `bool(re.search(pat, subj, re.IGNORECASE))`
with `Except.error` standing for a raised `re.error` (malformed pattern);
`currentHour` models `datetime.now().hour`; `handler` models invoking the
registered action coroutine on the (template-substituted) action — its
`Except.error` carries `str(e)` of a raised exception; `startedAt` /
`completedAt` model the two `datetime.utcnow().isoformat()` reads. -/
structure Oracles where
  regexSearch : String → String → Except Unit Bool
  currentHour : Int
  handler : WAction → Val → Val → Except String Val
  startedAt : String
  completedAt : String

/-- Is `sub` a contiguous run of `l`?  (Substring test on char lists.) -/
def charsInfix (sub : List Char) : List Char → Bool
  | [] => sub.isEmpty
  | c :: rest => sub.isPrefixOf (c :: rest) || charsInfix sub rest

/-- Python `sub in s` on strings. -/
def pyIn (sub s : String) : Bool := charsInfix sub.data s.data

/-- The `elif` chain of `_evaluate_single_condition` after the `None` check:
`fv` is the resolved field value (not `None`), `ctype`/`value` the condition's
`type`/`value` entries, `kvs` the condition dict (consulted again for
`time_range` bounds).  `Except.error` models an exception escaping the chain
(only possible for `regex` with a non-string pattern, a `TypeError` that the
inner `except re.error` does not catch). -/
def leaf_dispatch (O : Oracles) (kvs : ValDict) (ctype fv value : Val) :
    Except Unit Bool :=
  let fieldStr := pyLower (pyStr fv)
  let valueStr := pyLower (pyStr value)
  match ctype with
  | .str t =>
    if t = "contains" then .ok (pyIn valueStr fieldStr)
    else if t = "equals" then .ok (fieldStr = valueStr)
    else if t = "starts_with" then .ok (valueStr.data.isPrefixOf fieldStr.data)
    else if t = "ends_with" then .ok (valueStr.data.isSuffixOf fieldStr.data)
    else if t = "regex" then
      match value with
      | .str pat =>
        .ok (match O.regexSearch pat fieldStr with
             | .ok b => b
             | .error _ => false)
      | _ => .error ()
    else if t = "greater_than" then
      .ok (match pyFloat fv, pyFloat value with
           | some a, some b => decide (b < a)
           | _, _ => false)
    else if t = "less_than" then
      .ok (match pyFloat fv, pyFloat value with
           | some a, some b => decide (a < b)
           | _, _ => false)
    else if t = "time_range" then
      .ok (match pyInt (pyGetD kvs "start_hour" (Val.int 0)),
                 pyInt (pyGetD kvs "end_hour" (Val.int 23)) with
           | some s, some e => decide (s ≤ O.currentHour) && decide (O.currentHour ≤ e)
           | _, _ => false)
    else .ok false
  | _ => .ok false

/-- Model of `WorkflowEngine._evaluate_single_condition`.  `Except.error` models an
exception escaping the method (caught by the `try` in `evaluate_conditions`):
a non-dict condition (`condition.get` raises `AttributeError`), a non-string
`field` (`field.split` raises `AttributeError`), or the `regex` `TypeError`
from `leaf_dispatch`. -/
def evaluate_single_condition (O : Oracles) (cond ctx : Val) : Except Unit Bool :=
  match cond with
  | .dict kvs =>
    match pyGetD kvs "field" (Val.str "content") with
    | .str fieldS =>
      match getNested ctx fieldS with
      | .none => .ok false
      | fv =>
        leaf_dispatch O kvs (pyGetD kvs "type" (Val.str "contains")) fv
          (pyGetD kvs "value" (Val.str ""))
    | _ => .error ()
  | _ => .error ()

/-- Python `for cond in v`: lists yield elements, strings yield their
characters (as one-character strings), dicts yield their keys; other values
raise `TypeError`. -/
def pyIter : Val → Except Unit (List Val)
  | .list xs => .ok xs.toList
  | .str s => .ok (s.data.map (fun c => Val.str (String.singleton c)))
  | .dict kvs => .ok (kvs.keys.map Val.str)
  | _ => .error ()

/-- Model of `all(gen)` over condition evaluation, with Python's short-circuiting: the
first `False` stops iteration, an exception propagates. -/
def evalAllE (O : Oracles) (ctx : Val) : List Val → Except Unit Bool
  | [] => .ok true
  | c :: cs =>
    match evaluate_single_condition O c ctx with
    | .error e => .error e
    | .ok false => .ok false
    | .ok true => evalAllE O ctx cs

/-- Model of `any(gen)` over condition evaluation, short-circuiting at the first
`True`. -/
def evalAnyE (O : Oracles) (ctx : Val) : List Val → Except Unit Bool
  | [] => .ok false
  | c :: cs =>
    match evaluate_single_condition O c ctx with
    | .error e => .error e
    | .ok true => .ok true
    | .ok false => evalAnyE O ctx cs

/-- The `try/except` of `evaluate_conditions`: any exception degrades to
`False`. -/
def collapseB : Except Unit Bool → Bool
  | .ok b => b
  | .error _ => false

/-- Model of `WorkflowEngine.evaluate_conditions`.  For a dict: the `"all"` key (if
present) selects the AND combinator, else `"any"` selects OR, else the whole
dict is a single condition; nested conditions go through
`_evaluate_single_condition` (not through `evaluate_conditions` again).  For
a non-dict argument every Python execution path raises (`in` on an
`int`/`bool`/`None` raises `TypeError`; a string or list either fails the
membership tests and then raises in `condition.get`, or passes them and then
raises at the `conditions["all"]`/`conditions["any"]` indexing) and is caught
by the method's `try`, so the result is `False`. -/
def evaluate_conditions (O : Oracles) (conds ctx : Val) : Bool :=
  match conds with
  | .dict kvs =>
    match kvs.lookup "all" with
    | some v =>
      (match pyIter v with
       | .ok cs => collapseB (evalAllE O ctx cs)
       | .error _ => false)
    | Option.none =>
      match kvs.lookup "any" with
      | some v =>
        (match pyIter v with
         | .ok cs => collapseB (evalAnyE O ctx cs)
         | .error _ => false)
      | Option.none => collapseB (evaluate_single_condition O conds ctx)
  | _ => false

/-- The character class `[^\x7d]` of the template pattern. -/
def notRB (c : Char) : Bool := ¬ (c = rbrace)

/-- Try to match the regex `r"\x7b\x7b([^\x7d]+)\x7d\x7d"` at the start of
`cs`: two `lbrace`s, a nonempty greedy run of non-`rbrace` characters, then
two `rbrace`s.  Returns the captured group and the characters after the
match.  (Because `[^\x7d]` cannot match `\x7d`, greedy matching with
backtracking succeeds exactly when the maximal non-`rbrace` run is followed
by two `rbrace`s.) -/
def pySubMatch? (cs : List Char) : Option (List Char × List Char) :=
  match cs with
  | c1 :: c2 :: rest =>
    if c1 = lbrace ∧ c2 = lbrace then
      match rest.dropWhile notRB with
      | r1 :: r2 :: tail =>
        let content := rest.takeWhile notRB
        if ¬ content.isEmpty ∧ r1 = rbrace ∧ r2 = rbrace then some (content, tail)
        else Option.none
      | _ => Option.none
    else Option.none
  | _ => Option.none

/-- The `replace_var` callback of `_apply_templates`: strip the captured
variable name, resolve it with `_get_nested_value`; a non-`None` value is
replaced by its `str(...)`, otherwise the whole matched token
(`match.group(0)`) is kept verbatim. -/
def templateReplacement (ctx : Val) (content : List Char) : List Char :=
  match getNested ctx (String.mk (pyTrimChars content)) with
  | Val.none => lbrace :: lbrace :: (content ++ [rbrace, rbrace])
  | v => (pyStr v).data

/-- The left-to-right, non-overlapping scan of `re.sub`: at each position try
the pattern; on a match emit the replacement and continue after the match,
otherwise keep the character and move one position right.  `fuel` makes the
recursion structural; every step consumes at least one character, so any
`fuel ≥ cs.length` computes the scan (see `reSubGo_fuel_irrel`). -/
def reSubGo (ctx : Val) : Nat → List Char → List Char
  | 0, cs => cs
  | _ + 1, [] => []
  | fuel + 1, c :: rest =>
    match pySubMatch? (c :: rest) with
    | some (content, remainder) =>
      templateReplacement ctx content ++ reSubGo ctx fuel remainder
    | Option.none => c :: reSubGo ctx fuel rest

/-- The full scan at its canonical fuel. -/
def reSubTemplates (ctx : Val) (cs : List Char) : List Char :=
  reSubGo ctx cs.length cs

/-- Model of `re.sub(r"\x7b\x7b([^\x7d]+)\x7d\x7d", replace_var, s)` against `ctx`. -/
def substStr (ctx : Val) (s : String) : String :=
  String.mk (reSubTemplates ctx s.data)

-- `substitute_templates` from `_apply_templates`: strings get the regex
-- substitution, dicts recurse per value, lists per element, all other
-- scalars pass through unchanged.  (`action.copy()` is a no-op in a pure
-- embedding.)
mutual
def substV (ctx : Val) : Val → Val
  | .str s => .str (substStr ctx s)
  | .dict kvs => .dict (substVDict ctx kvs)
  | .list xs => .list (substVList ctx xs)
  | v => v

def substVList (ctx : Val) : ValList → ValList
  | .nil => .nil
  | .cons v tl => .cons (substV ctx v) (substVList ctx tl)

def substVDict (ctx : Val) : ValDict → ValDict
  | .nil => .nil
  | .cons k v tl => .cons k (substV ctx v) (substVDict ctx tl)
end

/-- Model of `WorkflowEngine._apply_templates(action, context)`. -/
def apply_templates (action ctx : Val) : Val := substV ctx action

/-- The `str(e)` text of the `AttributeError` raised by `v.get(...)` on a non-dict. -/
def pyAttrErrMsg (v : Val) : String :=
  "\x27" ++ typeName v ++ "\x27 object has no attribute \x27get\x27"

/-- The `str(e)` text of the `TypeError` raised by iterating a non-iterable. -/
def pyIterErrMsg (v : Val) : String :=
  "\x27" ++ typeName v ++ "\x27 object is not iterable"

/-- Model of `WorkflowEngine._execute_action(action, context)`: read the raw `type`,
reject it if it is not one of the enum values (`ValueError`, whose `str` is
the message below), otherwise template-substitute the action and invoke the
registered handler.  (The `if not handler` guard in the source is dead code:
the registry maps every enum member.)  A non-dict action raises
`AttributeError` at `action.get`. -/
def execute_action (O : Oracles) (action ctx : Val) : Except String Val :=
  match action with
  | .dict kvs =>
    match findAction (pyGetD kvs "type" Val.none) with
    | some wa => O.handler wa (apply_templates action ctx) ctx
    | Option.none =>
      .error ("Unknown action type: " ++ pyStr (pyGetD kvs "type" Val.none))
  | _ => .error (pyAttrErrMsg action)

/-- One entry of `execution_log["actions_executed"]`: a success entry carries
`result`, a failure entry carries `error`. -/
structure ActionEntry where
  action_index : Nat
  action_type : Val
  success : Bool
  result : Option Val
  error : Option String

/-- The `execution_log` dict as returned by `execute_workflow`; `error = Option.none`
models the JSON `null`, `completed_at = Option.none` models the key being
absent. -/
structure ExecutionLog where
  workflow_id : Val
  started_at : String
  actions_executed : List ActionEntry
  success : Bool
  error : Option String
  completed_at : Option String

/-- Result of the `for i, action in enumerate(actions)` loop: `normal`
carries the accumulated entries plus the final `success`/`error` fields;
`raised` models an exception escaping the loop body outside its inner
`try` (reaching the outer `except` of `execute_workflow`). -/
inductive LoopOutcome where
  | normal : List ActionEntry → Bool → Option String → LoopOutcome
  | raised : List ActionEntry → String → LoopOutcome

/-- The action loop of `execute_workflow`.  Per action: dispatch; on success
append a success entry; on exception append a failure entry and either
continue (`continue_on_error` truthy) or set `success=False`, set the
index-naming error message, and `break`.  Building either entry evaluates
`action.get("type")`, which on a non-dict action raises out of the loop
(the success arm of that situation is unreachable, since dispatch already
failed on a non-dict). -/
def execute_actions_loop (O : Oracles) (ctx : Val) :
    List Val → Nat → List ActionEntry → LoopOutcome
  | [], _, acc => .normal acc true Option.none
  | action :: rest, i, acc =>
    match execute_action O action ctx with
    | .ok result =>
      match action with
      | .dict kvs =>
        execute_actions_loop O ctx rest (i + 1)
          (acc ++ [⟨i, pyGetD kvs "type" Val.none, true, some result, Option.none⟩])
      | _ => .raised acc (pyAttrErrMsg action)
    | .error e =>
      match action with
      | .dict kvs =>
        if pyTruthy (pyGetD kvs "continue_on_error" (Val.bool false)) then
          execute_actions_loop O ctx rest (i + 1)
            (acc ++ [⟨i, pyGetD kvs "type" Val.none, false, Option.none, some e⟩])
        else
          .normal (acc ++ [⟨i, pyGetD kvs "type" Val.none, false, Option.none, some e⟩])
            false (some ("Action " ++ toString i ++ " failed: " ++ e))
      | _ => .raised acc (pyAttrErrMsg action)

/-- Model of `WorkflowEngine.execute_workflow(workflow, context)` for a dict workflow
(the only shape the engine is ever handed; a non-mapping would raise at
`workflow.get("id")` before the log exists, outside the `try`).  Order of
the source: build the base log; inside `try`: the enabled check, the
conditions check, the action loop, then `completed_at`; the outer `except`
turns any escaped exception into `success=False, error=str(e)` and still
sets `completed_at`. -/
def execute_workflow (O : Oracles) (wkvs : ValDict) (ctx : Val) : ExecutionLog :=
  let wid := pyGetD wkvs "id" Val.none
  if ¬ pyTruthy (pyGetD wkvs "enabled" (Val.bool true)) then
    ⟨wid, O.startedAt, [], false, some "Workflow is disabled", Option.none⟩
  else
    let conditions := pyGetD wkvs "conditions" (Val.dict .nil)
    if pyTruthy conditions ∧ ¬ evaluate_conditions O conditions ctx then
      ⟨wid, O.startedAt, [], false, some "Conditions not met", Option.none⟩
    else
      let actions := pyGetD wkvs "actions" (Val.list .nil)
      match pyIter actions with
      | .error _ =>
        ⟨wid, O.startedAt, [], false, some (pyIterErrMsg actions), some O.completedAt⟩
      | .ok acts =>
        match execute_actions_loop O ctx acts 0 [] with
        | .normal entries succ err =>
          ⟨wid, O.startedAt, entries, succ, err, some O.completedAt⟩
        | .raised entries msg =>
          ⟨wid, O.startedAt, entries, false, some msg, some O.completedAt⟩

/-- The boolean a nested condition contributes under `all(...)`/`any(...)`:
its `_evaluate_single_condition` result, with an exception collapsing to
`False` at the enclosing `try`. -/
def leaf_bool (O : Oracles) (ctx c : Val) : Bool :=
  collapseB (evaluate_single_condition O c ctx)

/-- The spec's description of the four text operators (refinement target for
C8): both the resolved field value and the condition value are compared after
lowercasing their string forms. -/
def specTextOp (t f v : String) : Bool :=
  let fl := pyLower f
  let vl := pyLower v
  if t = "contains" then pyIn vl fl
  else if t = "equals" then fl = vl
  else if t = "starts_with" then vl.data.isPrefixOf fl.data
  else if t = "ends_with" then vl.data.isSuffixOf fl.data
  else false

/-- An action the loop steps over without breaking out: either its dispatch
succeeds, or it is a dict whose dispatch fails with a truthy
`continue_on_error`. -/
def tolerated (O : Oracles) (ctx a : Val) : Prop :=
  (∃ v, execute_action O a ctx = Except.ok v) ∨
  (∃ kvs e, a = Val.dict kvs ∧ execute_action O a ctx = Except.error e ∧
    pyTruthy (pyGetD kvs "continue_on_error" (Val.bool false)) = true)

/-- A concrete instantiation of the oracles, used by the closed
counterexample/witness theorems: the regex engine rejects every pattern (as
for a malformed pattern), the clock reads noon, and every handler returns
`None` successfully. -/
def O0 : Oracles where
  regexSearch := fun _ _ => .error ()
  currentHour := 12
  handler := fun _ _ _ => .ok Val.none
  startedAt := "2025-01-01T00:00:00"
  completedAt := "2025-01-01T00:00:01"

/-! ### Helper lemmas -/

lemma collapseB_allE (O : Oracles) (ctx : Val) :
    ∀ l : List Val, collapseB (evalAllE O ctx l) = l.all (fun c => leaf_bool O ctx c) := by
  intro l
  induction l with
  | nil => rfl
  | cons c cs ih =>
    simp only [evalAllE, List.all_cons]
    cases h : evaluate_single_condition O c ctx with
    | error e => simp [collapseB, leaf_bool, h]
    | ok b =>
      cases b with
      | false => simp [collapseB, leaf_bool, h]
      | true => simpa [collapseB, leaf_bool, h] using ih

lemma collapseB_anyE (O : Oracles) (ctx : Val) :
    ∀ l : List Val, (∀ c ∈ l, ∃ b, evaluate_single_condition O c ctx = Except.ok b) →
      collapseB (evalAnyE O ctx l) = l.any (fun c => leaf_bool O ctx c) := by
  intro l
  induction l with
  | nil => intro _; rfl
  | cons c cs ih =>
    intro hok
    obtain ⟨b, hb⟩ := hok c (List.mem_cons_self c cs)
    simp only [evalAnyE, List.any_cons, hb]
    cases b with
    | true => simp [collapseB, leaf_bool, hb]
    | false =>
      have := ih (fun d hd => hok d (List.mem_cons_of_mem c hd))
      simpa [collapseB, leaf_bool, hb] using this

/-! ### Claims -/

/-- Claim C9: `evaluate({all: []}, context)` is `true` and
`evaluate({any: []}, context)` is `false`, for every context: the empty
conjunction is the identity `true`, the empty disjunction the identity
`false`. -/
theorem c9_empty_combinators (O : Oracles) (ctx : Val) :
    evaluate_conditions O (Val.dict (ValDict.cons "all" (Val.list ValList.nil) ValDict.nil)) ctx = true ∧
    evaluate_conditions O (Val.dict (ValDict.cons "any" (Val.list ValList.nil) ValDict.nil)) ctx = false :=
  ⟨rfl, rfl⟩

/-- Claim C1, counterexample: nested conditions are NOT dispatched through
the combinator logic.  The condition `{all: [{any: []}]}` evaluates to `true`
on the context `{content: "x"}` (the nested `{any: []}` is treated as a leaf
with default `type="contains"`, `field="content"`, `value=""`), whereas the
very same nested condition, dispatched by `evaluate_conditions` as the claim
prescribes, evaluates to `false` — so the claimed AND would be `false`. -/
theorem c1_counterexample :
    evaluate_conditions O0
      (Val.dict (ValDict.ofList
        [("all", Val.list (ValList.ofList [Val.dict (ValDict.ofList [("any", Val.list ValList.nil)])]))]))
      (Val.dict (ValDict.ofList [("content", Val.str "x")])) = true ∧
    evaluate_conditions O0
      (Val.dict (ValDict.ofList [("any", Val.list ValList.nil)]))
      (Val.dict (ValDict.ofList [("content", Val.str "x")])) = false :=
  ⟨rfl, rfl⟩

/-- Claim C1, amended: a condition carrying `all` evaluates to the logical
AND — and, when `all` is absent, one carrying `any` to the logical OR — of
evaluating each nested condition as a single *leaf* condition via
`_evaluate_single_condition`; nested combinators are not recursively
dispatched.  For `any`, a nested condition that raises short-circuits the
whole evaluation to `false`, so the OR form is stated for raise-free
children. -/
theorem c1_amended (O : Oracles) (kvs : ValDict) (ctx : Val) :
    (∀ xs : ValList, kvs.lookup "all" = some (Val.list xs) →
      evaluate_conditions O (Val.dict kvs) ctx =
        xs.toList.all (fun c => leaf_bool O ctx c)) ∧
    (kvs.lookup "all" = Option.none → ∀ ys : ValList,
      kvs.lookup "any" = some (Val.list ys) →
      (∀ c ∈ ys.toList, ∃ b, evaluate_single_condition O c ctx = Except.ok b) →
      evaluate_conditions O (Val.dict kvs) ctx =
        ys.toList.any (fun c => leaf_bool O ctx c)) := by
  constructor
  · intro xs hall
    simp only [evaluate_conditions, hall, pyIter]
    exact collapseB_allE O ctx xs.toList
  · intro hall ys hany hok
    simp only [evaluate_conditions, hall, hany, pyIter]
    exact collapseB_anyE O ctx ys.toList hok

/-- Witness for C1 (amended): a one-leaf `all` and a one-leaf `any`
(the leaf being the empty dict, i.e. all defaults) both evaluate to `true`
on `{content: "x"}`, as the amended AND/OR forms compute. -/
theorem c1_amended_witness :
    evaluate_conditions O0
      (Val.dict (ValDict.ofList [("all", Val.list (ValList.ofList [Val.dict ValDict.nil]))]))
      (Val.dict (ValDict.ofList [("content", Val.str "x")])) = true ∧
    evaluate_conditions O0
      (Val.dict (ValDict.ofList [("any", Val.list (ValList.ofList [Val.dict ValDict.nil]))]))
      (Val.dict (ValDict.ofList [("content", Val.str "x")])) = true := by
  constructor
  · exact ((c1_amended O0
      (ValDict.ofList [("all", Val.list (ValList.ofList [Val.dict ValDict.nil]))])
      (Val.dict (ValDict.ofList [("content", Val.str "x")]))).1
      (ValList.ofList [Val.dict ValDict.nil]) rfl).trans rfl
  · exact ((c1_amended O0
      (ValDict.ofList [("any", Val.list (ValList.ofList [Val.dict ValDict.nil]))])
      (Val.dict (ValDict.ofList [("content", Val.str "x")]))).2 rfl
      (ValList.ofList [Val.dict ValDict.nil]) rfl
      (fun c hc => by
        simp only [ValList.toList, ValList.ofList, List.mem_singleton] at hc
        exact hc ▸ ⟨true, rfl⟩)).trans rfl

/-- Claim C2, counterexample: the unknown-type check precedes template
substitution.  For the action `{type: "(placeholder t)"}` and context
`{t: "send_sms"}`, the dispatcher raises `Unknown action type` on the raw
type, even though substitution resolves the type to `send_sms`, a member of
the closed enumeration. -/
theorem c2_counterexample :
    execute_action O0
      (Val.dict (ValDict.ofList [("type", Val.str "\x7b\x7bt\x7d\x7d")]))
      (Val.dict (ValDict.ofList [("t", Val.str "send_sms")]))
      = Except.error "Unknown action type: \x7b\x7bt\x7d\x7d" ∧
    apply_templates
      (Val.dict (ValDict.ofList [("type", Val.str "\x7b\x7bt\x7d\x7d")]))
      (Val.dict (ValDict.ofList [("t", Val.str "send_sms")]))
      = Val.dict (ValDict.ofList [("type", Val.str "send_sms")]) ∧
    findAction (Val.str "send_sms") = some WAction.send_sms :=
  ⟨rfl, rfl, rfl⟩

/-- Claim C2, amended: the dispatcher first looks up the handler by the
action's raw (pre-substitution) `type`, raising a fatal unknown-action-type
error when that raw value is not in the closed enumeration; template
substitution is applied only after the type check, so the handler receives
the substituted action but a `type` containing a placeholder is rejected
unresolved. -/
theorem c2_amended (O : Oracles) (kvs : ValDict) (ctx : Val) :
    (findAction (pyGetD kvs "type" Val.none) = Option.none →
      execute_action O (Val.dict kvs) ctx =
        Except.error ("Unknown action type: " ++ pyStr (pyGetD kvs "type" Val.none))) ∧
    (∀ wa, findAction (pyGetD kvs "type" Val.none) = some wa →
      execute_action O (Val.dict kvs) ctx =
        O.handler wa (apply_templates (Val.dict kvs) ctx) ctx) := by
  constructor
  · intro h; simp [execute_action, h]
  · intro wa h; simp [execute_action, h]

/-- Witness for C2 (amended): an unknown raw type errors; a known raw type
(`delay`) reaches its handler (which here returns `None`). -/
theorem c2_amended_witness :
    execute_action O0 (Val.dict (ValDict.ofList [("type", Val.str "nope")])) Val.none
      = Except.error "Unknown action type: nope" ∧
    execute_action O0 (Val.dict (ValDict.ofList [("type", Val.str "delay")])) Val.none
      = Except.ok Val.none := by
  constructor
  · exact (c2_amended O0 (ValDict.ofList [("type", Val.str "nope")]) Val.none).1 rfl
  · exact ((c2_amended O0 (ValDict.ofList [("type", Val.str "delay")]) Val.none).2
      WAction.delay rfl).trans rfl

/-- Claim C6: a workflow whose `enabled` flag is `false` yields a log with
`success=False`, `error="Workflow is disabled"` and no executed actions,
whatever the oracles (so no handler runs and no condition is consulted). -/
theorem c6_disabled_workflow (O : Oracles) (wkvs : ValDict) (ctx : Val)
    (h : wkvs.lookup "enabled" = some (Val.bool false)) :
    execute_workflow O wkvs ctx =
      ⟨pyGetD wkvs "id" Val.none, O.startedAt, [], false,
        some "Workflow is disabled", Option.none⟩ := by
  unfold execute_workflow
  simp [pyGetD, h, pyTruthy]

/-- Witness for C6 at a concrete disabled workflow. -/
theorem c6_disabled_workflow_witness :
    execute_workflow O0 (ValDict.ofList [("enabled", Val.bool false)]) Val.none =
      ⟨Val.none, "2025-01-01T00:00:00", [], false,
        some "Workflow is disabled", Option.none⟩ :=
  c6_disabled_workflow O0 (ValDict.ofList [("enabled", Val.bool false)]) Val.none rfl

/-- Claim C8: the text operators `contains`/`equals`/`starts_with`/
`ends_with` are case-insensitive — a leaf with one of those types evaluates
to the spec's comparison of the lowercased string forms of the resolved field
value and the condition value; in particular the spec's example
`evaluate({type:"contains", field:"content", value:"URGENT"},
{content:"this is urgent now"})` is `true`. -/
theorem c8_text_ops_case_insensitive (O : Oracles) (kvs : ValDict) (ctx : Val) :
    (∀ t fs v fv,
      pyGetD kvs "type" (Val.str "contains") = Val.str t →
      (t = "contains" ∨ t = "equals" ∨ t = "starts_with" ∨ t = "ends_with") →
      pyGetD kvs "field" (Val.str "content") = Val.str fs →
      pyGetD kvs "value" (Val.str "") = Val.str v →
      getNested ctx fs = fv → fv ≠ Val.none →
      evaluate_single_condition O (Val.dict kvs) ctx =
        Except.ok (specTextOp t (pyStr fv) v)) ∧
    evaluate_conditions O
      (Val.dict (ValDict.ofList
        [("type", Val.str "contains"), ("field", Val.str "content"),
         ("value", Val.str "URGENT")]))
      (Val.dict (ValDict.ofList [("content", Val.str "this is urgent now")]))
      = true := by
  constructor
  · intro t fs v fv ht hops hf hv hg hne
    simp only [evaluate_single_condition, hf, hg]
    cases fv with
    | none => exact absurd rfl hne
    | bool b =>
      simp only [leaf_dispatch, ht, hv]
      rcases hops with rfl | rfl | rfl | rfl <;> simp [specTextOp, pyStr]
    | int n =>
      simp only [leaf_dispatch, ht, hv]
      rcases hops with rfl | rfl | rfl | rfl <;> simp [specTextOp, pyStr]
    | str s =>
      simp only [leaf_dispatch, ht, hv]
      rcases hops with rfl | rfl | rfl | rfl <;> simp [specTextOp, pyStr]
    | list xs =>
      simp only [leaf_dispatch, ht, hv]
      rcases hops with rfl | rfl | rfl | rfl <;> simp [specTextOp, pyStr]
    | dict d =>
      simp only [leaf_dispatch, ht, hv]
      rcases hops with rfl | rfl | rfl | rfl <;> simp [specTextOp, pyStr]
  · rfl

/-- Witness for C8: a mixed-case `equals` leaf, resolved through a dotted
path, evaluates as the case-insensitive comparison computes (`true` here). -/
theorem c8_text_ops_case_insensitive_witness :
    evaluate_single_condition O0
      (Val.dict (ValDict.ofList
        [("type", Val.str "equals"), ("field", Val.str "msg.kind"),
         ("value", Val.str "Urgent")]))
      (Val.dict (ValDict.ofList
        [("msg", Val.dict (ValDict.ofList [("kind", Val.str "URGENT")]))]))
      = Except.ok true := by
  have h := (c8_text_ops_case_insensitive O0
      (ValDict.ofList
        [("type", Val.str "equals"), ("field", Val.str "msg.kind"),
         ("value", Val.str "Urgent")])
      (Val.dict (ValDict.ofList
        [("msg", Val.dict (ValDict.ofList [("kind", Val.str "URGENT")]))]))).1
      "equals" "msg.kind" "Urgent" (Val.str "URGENT") rfl
      (Or.inr (Or.inl rfl)) rfl rfl rfl (fun h => Val.noConfusion h)
  exact h.trans rfl

/-- Claim C5: leaf evaluation failures never raise and always yield `false`:
an unresolvable `field` (and, when the leaf stands alone, the whole
`evaluate` call) gives `false`; a `regex` leaf whose pattern the regex
engine rejects gives `false`; a `greater_than`/`less_than` leaf with a
non-numeric operand gives `false`. -/
theorem c5_leaf_failures_fail_closed (O : Oracles) (kvs : ValDict) (ctx : Val) :
    (∀ fs, pyGetD kvs "field" (Val.str "content") = Val.str fs →
      getNested ctx fs = Val.none →
      evaluate_single_condition O (Val.dict kvs) ctx = Except.ok false ∧
      (kvs.lookup "all" = Option.none → kvs.lookup "any" = Option.none →
        evaluate_conditions O (Val.dict kvs) ctx = false)) ∧
    (∀ fs fv pat, pyGetD kvs "field" (Val.str "content") = Val.str fs →
      getNested ctx fs = fv → fv ≠ Val.none →
      pyGetD kvs "type" (Val.str "contains") = Val.str "regex" →
      pyGetD kvs "value" (Val.str "") = Val.str pat →
      O.regexSearch pat (pyLower (pyStr fv)) = Except.error () →
      evaluate_single_condition O (Val.dict kvs) ctx = Except.ok false) ∧
    (∀ t fs fv, pyGetD kvs "field" (Val.str "content") = Val.str fs →
      getNested ctx fs = fv → fv ≠ Val.none →
      pyGetD kvs "type" (Val.str "contains") = Val.str t →
      (t = "greater_than" ∨ t = "less_than") →
      (pyFloat fv = Option.none ∨
        pyFloat (pyGetD kvs "value" (Val.str "")) = Option.none) →
      evaluate_single_condition O (Val.dict kvs) ctx = Except.ok false) := by
  refine ⟨?_, ?_, ?_⟩
  · intro fs hf hg
    have h1 : evaluate_single_condition O (Val.dict kvs) ctx = Except.ok false := by
      simp only [evaluate_single_condition, hf, hg]
    refine ⟨h1, fun hall hany => ?_⟩
    simp [evaluate_conditions, hall, hany, h1, collapseB]
  · intro fs fv pat hf hg hne ht hv hre
    simp only [evaluate_single_condition, hf, hg]
    cases fv with
    | none => exact absurd rfl hne
    | bool b => simp [leaf_dispatch, ht, hv, hre]
    | int n => simp [leaf_dispatch, ht, hv, hre]
    | str s => simp [leaf_dispatch, ht, hv, hre]
    | list xs => simp [leaf_dispatch, ht, hv, hre]
    | dict d => simp [leaf_dispatch, ht, hv, hre]
  · intro t fs fv hf hg hne ht hops hnum
    simp only [evaluate_single_condition, hf, hg]
    have key : ∀ fv', pyFloat fv' = pyFloat fv →
        leaf_dispatch O kvs (Val.str t) fv' (pyGetD kvs "value" (Val.str "")) =
          Except.ok false := by
      intro fv' hfl
      rcases hops with rfl | rfl
      · cases hnum with
        | inl h => simp [leaf_dispatch, hfl, h]
        | inr h =>
          cases h2 : pyFloat fv' <;> simp [leaf_dispatch, h, h2]
      · cases hnum with
        | inl h => simp [leaf_dispatch, hfl, h]
        | inr h =>
          cases h2 : pyFloat fv' <;> simp [leaf_dispatch, h, h2]
    cases fv with
    | none => exact absurd rfl hne
    | bool b => rw [ht]; exact key (Val.bool b) rfl
    | int n => rw [ht]; exact key (Val.int n) rfl
    | str s => rw [ht]; exact key (Val.str s) rfl
    | list xs => rw [ht]; exact key (Val.list xs) rfl
    | dict d => rw [ht]; exact key (Val.dict d) rfl

/-- Witness for C5, exercising all three fail-closed cases at concrete
leaves: an unresolvable field, a rejected regex pattern, and a non-numeric
`greater_than`. -/
theorem c5_leaf_failures_fail_closed_witness :
    evaluate_single_condition O0
      (Val.dict (ValDict.ofList [("field", Val.str "missing.path")]))
      (Val.dict ValDict.nil) = Except.ok false ∧
    evaluate_conditions O0
      (Val.dict (ValDict.ofList [("field", Val.str "missing.path")]))
      (Val.dict ValDict.nil) = false ∧
    evaluate_single_condition O0
      (Val.dict (ValDict.ofList
        [("type", Val.str "regex"), ("field", Val.str "content"),
         ("value", Val.str "(")]))
      (Val.dict (ValDict.ofList [("content", Val.str "abc")]))
      = Except.ok false ∧
    evaluate_single_condition O0
      (Val.dict (ValDict.ofList
        [("type", Val.str "greater_than"), ("field", Val.str "content"),
         ("value", Val.str "10")]))
      (Val.dict (ValDict.ofList [("content", Val.str "abc")]))
      = Except.ok false := by
  have h1 := ((c5_leaf_failures_fail_closed O0
      (ValDict.ofList [("field", Val.str "missing.path")])
      (Val.dict ValDict.nil)).1 "missing.path" rfl rfl)
  have h2 := ((c5_leaf_failures_fail_closed O0
      (ValDict.ofList
        [("type", Val.str "regex"), ("field", Val.str "content"),
         ("value", Val.str "(")])
      (Val.dict (ValDict.ofList [("content", Val.str "abc")]))).2.1
      "content" (Val.str "abc") "(" rfl rfl (fun h => Val.noConfusion h) rfl rfl rfl)
  have h3 := ((c5_leaf_failures_fail_closed O0
      (ValDict.ofList
        [("type", Val.str "greater_than"), ("field", Val.str "content"),
         ("value", Val.str "10")])
      (Val.dict (ValDict.ofList [("content", Val.str "abc")]))).2.2
      "greater_than" "content" (Val.str "abc") rfl rfl
      (fun h => Val.noConfusion h) rfl (Or.inl rfl) (Or.inl (by decide)))
  exact ⟨h1.1, h1.2 rfl rfl, h2, h3⟩

lemma loop_success_iff_error_none (O : Oracles) (ctx : Val) :
    ∀ (acts : List Val) (i : Nat) (acc entries : List ActionEntry) (s : Bool)
      (e : Option String),
      execute_actions_loop O ctx acts i acc = .normal entries s e →
      (s = true ↔ e = Option.none) := by
  intro acts
  induction acts with
  | nil =>
    intro i acc entries s e h
    simp only [execute_actions_loop, LoopOutcome.normal.injEq] at h
    obtain ⟨-, hs, he⟩ := h
    simp [← hs, ← he]
  | cons a rest ih =>
    intro i acc entries s e h
    simp only [execute_actions_loop] at h
    split at h
    · split at h
      · exact ih _ _ _ _ _ h
      · cases h
    · split at h
      · split at h
        · exact ih _ _ _ _ _ h
        · simp only [LoopOutcome.normal.injEq] at h
          obtain ⟨-, hs, he⟩ := h
          simp [← hs, ← he]
      · cases h

/-- Claim C3: for every (dict) workflow and context, `execute_workflow`
returns a well-formed log — the embedding is a total function into
`ExecutionLog` (every raising sub-operation is an `Except` absorbed here),
and the returned log carries the workflow's id, the start timestamp, and
coherent `success`/`error` fields (`success` is `True` exactly when `error`
is `None`). -/
theorem c3_run_never_escapes (O : Oracles) (wkvs : ValDict) (ctx : Val) :
    (execute_workflow O wkvs ctx).workflow_id = pyGetD wkvs "id" Val.none ∧
    (execute_workflow O wkvs ctx).started_at = O.startedAt ∧
    ((execute_workflow O wkvs ctx).success = true ↔
      (execute_workflow O wkvs ctx).error = Option.none) := by
  simp only [execute_workflow]
  split
  · exact ⟨rfl, rfl, by simp⟩
  · split
    · exact ⟨rfl, rfl, by simp⟩
    · split
      · exact ⟨rfl, rfl, by simp⟩
      · split
        · rename_i entries succ err h
          exact ⟨rfl, rfl, loop_success_iff_error_none O ctx _ _ _ _ _ _ h⟩
        · exact ⟨rfl, rfl, by simp⟩

/-- Claim C10: the returned log lacks `completed_at` exactly on the two early
exits (disabled workflow, or truthy conditions that evaluate false); every
run reaching the action phase — including ones aborted by an action failure
or by an internal exception — carries `completed_at`. -/
theorem c10_completed_at_iff_action_phase (O : Oracles) (wkvs : ValDict) (ctx : Val) :
    (execute_workflow O wkvs ctx).completed_at = Option.none ↔
      (pyTruthy (pyGetD wkvs "enabled" (Val.bool true)) = false ∨
       (pyTruthy (pyGetD wkvs "conditions" (Val.dict ValDict.nil)) = true ∧
        evaluate_conditions O (pyGetD wkvs "conditions" (Val.dict ValDict.nil)) ctx
          = false)) := by
  simp only [execute_workflow]
  by_cases he : pyTruthy (pyGetD wkvs "enabled" (Val.bool true)) = true
  · rw [if_neg (by simp [he])]
    by_cases hv : pyTruthy (pyGetD wkvs "conditions" (Val.dict ValDict.nil)) = true ∧
        ¬ evaluate_conditions O (pyGetD wkvs "conditions" (Val.dict ValDict.nil)) ctx = true
    · rw [if_pos hv]
      have h2 : evaluate_conditions O
          (pyGetD wkvs "conditions" (Val.dict ValDict.nil)) ctx = false := by
        simpa using hv.2
      simp [he, hv.1, h2]
    · have hrhs : ¬ (pyTruthy (pyGetD wkvs "enabled" (Val.bool true)) = false ∨
          (pyTruthy (pyGetD wkvs "conditions" (Val.dict ValDict.nil)) = true ∧
           evaluate_conditions O (pyGetD wkvs "conditions" (Val.dict ValDict.nil)) ctx
             = false)) := by
        rintro (h | ⟨h1, h2⟩)
        · rw [he] at h; cases h
        · exact hv ⟨h1, by simp [h2]⟩
      rw [if_neg hv]
      split
      · exact iff_of_false (by simp) hrhs
      · split
        · exact iff_of_false (by simp) hrhs
        · exact iff_of_false (by simp) hrhs
  · rw [if_pos (by simpa using he)]
    simp only [Bool.not_eq_true] at he
    simp [he]

lemma execute_action_ok_dict (O : Oracles) (a ctx v : Val)
    (h : execute_action O a ctx = Except.ok v) : ∃ kvs, a = Val.dict kvs := by
  cases a
  case dict kvs => exact ⟨kvs, rfl⟩
  all_goals simp [execute_action] at h

lemma loop_tolerated_normal (O : Oracles) (ctx : Val) :
    ∀ (acts : List Val) (i : Nat) (acc : List ActionEntry),
      (∀ a ∈ acts, tolerated O ctx a) →
      ∃ entries,
        execute_actions_loop O ctx acts i acc =
          .normal (acc ++ entries) true Option.none ∧
        entries.length = acts.length := by
  intro acts
  induction acts with
  | nil => intro i acc _; exact ⟨[], by simp [execute_actions_loop], rfl⟩
  | cons a rest ih =>
    intro i acc hall
    rcases hall a (List.mem_cons_self a rest) with ⟨v, hok⟩ | ⟨kvs, e, rfl, herr, hcoe⟩
    · obtain ⟨kvs, rfl⟩ := execute_action_ok_dict O a ctx v hok
      obtain ⟨entries, hloop, hlen⟩ :=
        ih (i + 1) (acc ++ [⟨i, pyGetD kvs "type" Val.none, true, some v, Option.none⟩])
          (fun b hb => hall b (List.mem_cons_of_mem _ hb))
      refine ⟨⟨i, pyGetD kvs "type" Val.none, true, some v, Option.none⟩ :: entries,
        ?_, by simp [hlen]⟩
      simp only [execute_actions_loop, hok]
      rw [hloop]
      simp
    · obtain ⟨entries, hloop, hlen⟩ :=
        ih (i + 1) (acc ++ [⟨i, pyGetD kvs "type" Val.none, false, Option.none, some e⟩])
          (fun b hb => hall b (List.mem_cons_of_mem _ hb))
      refine ⟨⟨i, pyGetD kvs "type" Val.none, false, Option.none, some e⟩ :: entries,
        ?_, by simp [hlen]⟩
      simp only [execute_actions_loop, herr, hcoe, if_true]
      rw [hloop]
      simp

lemma loop_fail_break (O : Oracles) (ctx : Val) :
    ∀ (pre : List Val) (kvs : ValDict) (e : String) (rest : List Val) (i : Nat)
      (acc : List ActionEntry),
      (∀ a ∈ pre, tolerated O ctx a) →
      execute_action O (Val.dict kvs) ctx = Except.error e →
      pyTruthy (pyGetD kvs "continue_on_error" (Val.bool false)) = false →
      ∃ entries,
        execute_actions_loop O ctx (pre ++ Val.dict kvs :: rest) i acc =
          .normal
            (acc ++ entries ++
              [⟨i + pre.length, pyGetD kvs "type" Val.none, false, Option.none, some e⟩])
            false
            (some ("Action " ++ toString (i + pre.length) ++ " failed: " ++ e)) ∧
        entries.length = pre.length := by
  intro pre
  induction pre with
  | nil =>
    intro kvs e rest i acc _ herr hcoe
    refine ⟨[], ?_, rfl⟩
    simp only [List.nil_append, execute_actions_loop, herr, hcoe]
    simp
  | cons a pre' ih =>
    intro kvs e rest i acc hall herr hcoe
    have hidx : i + 1 + pre'.length = i + (pre'.length + 1) := by omega
    rcases hall a (List.mem_cons_self a pre') with ⟨v, hok⟩ | ⟨kvs', e', rfl, herr', hcoe'⟩
    · obtain ⟨kvs0, rfl⟩ := execute_action_ok_dict O a ctx v hok
      obtain ⟨entries, hloop, hlen⟩ :=
        ih kvs e rest (i + 1)
          (acc ++ [⟨i, pyGetD kvs0 "type" Val.none, true, some v, Option.none⟩])
          (fun b hb => hall b (List.mem_cons_of_mem _ hb)) herr hcoe
      refine ⟨⟨i, pyGetD kvs0 "type" Val.none, true, some v, Option.none⟩ :: entries,
        ?_, by simp [hlen]⟩
      simp only [List.cons_append, execute_actions_loop, List.append_eq, hok]
      rw [hloop]
      simp [hidx]
    · obtain ⟨entries, hloop, hlen⟩ :=
        ih kvs e rest (i + 1)
          (acc ++ [⟨i, pyGetD kvs' "type" Val.none, false, Option.none, some e'⟩])
          (fun b hb => hall b (List.mem_cons_of_mem _ hb)) herr hcoe
      refine ⟨⟨i, pyGetD kvs' "type" Val.none, false, Option.none, some e'⟩ :: entries,
        ?_, by simp [hlen]⟩
      simp only [List.cons_append, execute_actions_loop, List.append_eq, herr', hcoe',
        if_true]
      rw [hloop]
      simp [hidx]

/-- Claim C4, counterexample: an action list can fail at index 0 without the
log gaining any entry.  With the single (non-mapping) action `"oops"`, the
dispatcher raises `AttributeError`; re-raising while building the failure
entry escapes to the outer handler, so `actions_executed` stays empty and
the run's error names no index — contradicting the claim's "the log gains
an entry \x7baction_index: i, ...\x7d". -/
theorem c4_counterexample :
    execute_action O0 (Val.str "oops") (Val.dict ValDict.nil)
      = Except.error "\x27str\x27 object has no attribute \x27get\x27" ∧
    execute_workflow O0
      (ValDict.ofList [("actions", Val.list (ValList.ofList [Val.str "oops"]))])
      (Val.dict ValDict.nil)
      = ⟨Val.none, "2025-01-01T00:00:00", [], false,
          some "\x27str\x27 object has no attribute \x27get\x27",
          some "2025-01-01T00:00:01"⟩ :=
  ⟨rfl, rfl⟩

/-- Claim C4, amended (the claim's accounting holds when the failing action
is a mapping): if the actions of an executing workflow split as
`pre ++ [failing] ++ rest` with every action of `pre` tolerated (successful,
or failing with truthy `continue_on_error`) and the failing dict action's
dispatch raising `e` with `continue_on_error` not truthy, then the log ends
with the entry `(index |pre|, its type, success=false, error=e)`, has exactly
`|pre| + 1` entries (nothing after the failure is attempted), overall
`success=false` and an error naming index `|pre|`; and if instead every
action is tolerated, all of them are attempted (one entry each) and the run
succeeds. -/
theorem c4_amended (O : Oracles) (wkvs : ValDict) (ctx : Val) (actsV : ValList)
    (hen : pyTruthy (pyGetD wkvs "enabled" (Val.bool true)) = true)
    (hcond : pyTruthy (pyGetD wkvs "conditions" (Val.dict ValDict.nil)) = false ∨
      evaluate_conditions O (pyGetD wkvs "conditions" (Val.dict ValDict.nil)) ctx = true)
    (hacts : wkvs.lookup "actions" = some (Val.list actsV)) :
    (∀ (pre : List Val) (kvs : ValDict) (e : String) (rest : List Val),
      actsV.toList = pre ++ Val.dict kvs :: rest →
      (∀ a ∈ pre, tolerated O ctx a) →
      execute_action O (Val.dict kvs) ctx = Except.error e →
      pyTruthy (pyGetD kvs "continue_on_error" (Val.bool false)) = false →
      ∃ entries,
        execute_workflow O wkvs ctx =
          ⟨pyGetD wkvs "id" Val.none, O.startedAt,
           entries ++
             [⟨pre.length, pyGetD kvs "type" Val.none, false, Option.none, some e⟩],
           false, some ("Action " ++ toString pre.length ++ " failed: " ++ e),
           some O.completedAt⟩ ∧
        entries.length = pre.length) ∧
    ((∀ a ∈ actsV.toList, tolerated O ctx a) →
      ∃ entries,
        execute_workflow O wkvs ctx =
          ⟨pyGetD wkvs "id" Val.none, O.startedAt, entries, true, Option.none,
           some O.completedAt⟩ ∧
        entries.length = actsV.toList.length) := by
  have hw : execute_workflow O wkvs ctx =
      (match execute_actions_loop O ctx actsV.toList 0 [] with
       | .normal entries succ err =>
         ⟨pyGetD wkvs "id" Val.none, O.startedAt, entries, succ, err, some O.completedAt⟩
       | .raised entries msg =>
         ⟨pyGetD wkvs "id" Val.none, O.startedAt, entries, false, some msg,
          some O.completedAt⟩) := by
    simp only [execute_workflow]
    rw [if_neg (by simp [hen])]
    rw [if_neg (by
      rintro ⟨h1, h2⟩
      rcases hcond with h | h
      · rw [h1] at h; cases h
      · exact h2 h)]
    have : pyGetD wkvs "actions" (Val.list ValList.nil) = Val.list actsV := by
      simp [pyGetD, hacts]
    rw [this]
    rfl
  constructor
  · intro pre kvs e rest hsplit hall herr hcoe
    obtain ⟨entries, hloop, hlen⟩ :=
      loop_fail_break O ctx pre kvs e rest 0 [] hall herr hcoe
    refine ⟨entries, ?_, hlen⟩
    rw [hw, hsplit, hloop]
    simp
  · intro hall
    obtain ⟨entries, hloop, hlen⟩ :=
      loop_tolerated_normal O ctx actsV.toList 0 [] hall
    refine ⟨entries, ?_, hlen⟩
    rw [hw, hloop]
    simp

/-- Witness for C4 (amended): a workflow whose single action has the unknown
type `nope` fails at index 0 with no prior actions; the log has exactly one
entry and the overall error names index 0. -/
theorem c4_amended_witness :
    execute_workflow O0
      (ValDict.ofList
        [("actions",
          Val.list (ValList.ofList [Val.dict (ValDict.ofList [("type", Val.str "nope")])]))])
      (Val.dict ValDict.nil)
      = ⟨Val.none, "2025-01-01T00:00:00",
         [⟨0, Val.str "nope", false, Option.none, some "Unknown action type: nope"⟩],
         false, some "Action 0 failed: Unknown action type: nope",
         some "2025-01-01T00:00:01"⟩ := by
  obtain ⟨entries, heq, hlen⟩ :=
    (c4_amended O0
      (ValDict.ofList
        [("actions",
          Val.list (ValList.ofList [Val.dict (ValDict.ofList [("type", Val.str "nope")])]))])
      (Val.dict ValDict.nil)
      (ValList.ofList [Val.dict (ValDict.ofList [("type", Val.str "nope")])])
      rfl (Or.inl rfl) rfl).1
      [] (ValDict.ofList [("type", Val.str "nope")]) "Unknown action type: nope" []
      rfl (fun a ha => absurd ha (List.not_mem_nil a)) rfl rfl
  have hnil : entries = [] := List.length_eq_zero.mp hlen
  subst hnil
  simpa using heq

lemma takeWhile_append_cons_false {α : Type} (p : α → Bool) :
    ∀ (n : List α) (c : α) (tl : List α), (∀ x ∈ n, p x = true) → p c = false →
      (n ++ c :: tl).takeWhile p = n ∧ (n ++ c :: tl).dropWhile p = c :: tl := by
  intro n
  induction n with
  | nil =>
    intro c tl _ hc
    simp [List.takeWhile_cons, List.dropWhile_cons, hc]
  | cons x n' ih =>
    intro c tl hall hc
    have hx : p x = true := hall x (List.mem_cons_self x n')
    obtain ⟨h1, h2⟩ := ih c tl (fun y hy => hall y (List.mem_cons_of_mem x hy)) hc
    simp [List.takeWhile_cons, List.dropWhile_cons, hx, h1, h2]

lemma pySubMatch?_token (n r : List Char) (hn : n ≠ []) (hnr : rbrace ∉ n) :
    pySubMatch? (lbrace :: lbrace :: (n ++ rbrace :: rbrace :: r)) = some (n, r) := by
  have hp : ∀ x ∈ n, notRB x = true := by
    intro x hx
    simp only [notRB, decide_eq_true_eq]
    intro h
    exact hnr (h ▸ hx)
  have hrb : notRB rbrace = false := by simp [notRB]
  obtain ⟨htake, hdrop⟩ :=
    takeWhile_append_cons_false notRB n rbrace (rbrace :: r) hp hrb
  simp only [pySubMatch?]
  rw [hdrop]
  simp [htake, hn]

lemma pySubMatch?_no_lbrace (c : Char) (hc : ¬ c = lbrace) :
    ∀ xs, pySubMatch? (c :: xs) = Option.none := by
  intro xs
  cases xs with
  | nil => rfl
  | cons d tl => simp [pySubMatch?, hc]

lemma pySubMatch?_length :
    ∀ (cs content tail : List Char), pySubMatch? cs = some (content, tail) →
      tail.length + 4 ≤ cs.length := by
  intro cs content tail h
  match cs with
  | [] => simp [pySubMatch?] at h
  | [c] => simp [pySubMatch?] at h
  | c1 :: c2 :: rest =>
    simp only [pySubMatch?] at h
    split at h
    · split at h
      · rename_i r1 r2 tail' heq
        split at h
        · simp only [Option.some.injEq, Prod.mk.injEq] at h
          obtain ⟨-, htail⟩ := h
          have hlen := congrArg List.length
            (List.takeWhile_append_dropWhile (p := notRB) (l := rest))
          rw [heq] at hlen
          simp only [List.length_append, List.length_cons] at hlen
          simp only [List.length_cons, ← htail]
          omega
        · cases h
      · cases h
    · cases h

lemma reSubGo_fuel_irrel (ctx : Val) :
    ∀ (f1 : Nat) (cs : List Char) (f2 : Nat), cs.length ≤ f1 → cs.length ≤ f2 →
      reSubGo ctx f1 cs = reSubGo ctx f2 cs := by
  intro f1
  induction f1 with
  | zero =>
    intro cs f2 h1 _
    have : cs = [] := List.eq_nil_of_length_eq_zero (Nat.le_zero.mp h1)
    subst this
    cases f2 <;> rfl
  | succ g ih =>
    intro cs f2 h1 h2
    cases cs with
    | nil => cases f2 <;> rfl
    | cons c rest =>
      cases f2 with
      | zero => simp at h2
      | succ g2 =>
        simp only [reSubGo]
        cases hm : pySubMatch? (c :: rest) with
        | none =>
          have hr : rest.length ≤ g := by
            simpa using Nat.le_of_succ_le_succ h1
          have hr2 : rest.length ≤ g2 := by
            simpa using Nat.le_of_succ_le_succ h2
          exact congrArg (c :: ·) (ih rest g2 hr hr2)
        | some p =>
          obtain ⟨content, tail⟩ := p
          have hlen := pySubMatch?_length _ _ _ hm
          simp only [List.length_cons] at hlen h1 h2
          exact congrArg (templateReplacement ctx content ++ ·)
            (ih tail g2 (by omega) (by omega))

lemma reSubGo_token (ctx : Val) (n r : List Char) (hn : n ≠ []) (hnr : rbrace ∉ n) :
    ∀ (p : List Char) (f : Nat), lbrace ∉ p →
      (p ++ lbrace :: lbrace :: (n ++ rbrace :: rbrace :: r)).length ≤ f →
      reSubGo ctx f (p ++ lbrace :: lbrace :: (n ++ rbrace :: rbrace :: r)) =
        p ++ templateReplacement ctx n ++ reSubTemplates ctx r := by
  intro p
  induction p with
  | nil =>
    intro f hp hf
    cases f with
    | zero => simp at hf
    | succ g =>
      simp only [List.nil_append, List.length_cons, List.length_append] at hf ⊢
      simp only [reSubGo]
      rw [pySubMatch?_token n r hn hnr]
      have hr : r.length ≤ g := by omega
      exact congrArg (templateReplacement ctx n ++ ·)
        (reSubGo_fuel_irrel ctx g r r.length hr (Nat.le_refl _))
  | cons c p' ih =>
    intro f hp hf
    have hc : ¬ c = lbrace := fun h => hp (h ▸ List.mem_cons_self c p')
    cases f with
    | zero => simp at hf
    | succ g =>
      simp only [List.cons_append, List.append_eq, reSubGo]
      rw [pySubMatch?_no_lbrace c hc]
      have hg : (p' ++ lbrace :: lbrace :: (n ++ rbrace :: rbrace :: r)).length ≤ g := by
        simpa [List.cons_append] using Nat.le_of_succ_le_succ hf
      rw [ih g (fun h => hp (List.mem_cons_of_mem c h)) hg]

lemma substVDict_lookup (ctx : Val) : ∀ (kvs : ValDict) (k : String),
    (substVDict ctx kvs).lookup k = (kvs.lookup k).map (substV ctx)
  | .nil, _ => rfl
  | .cons k' v tl, k => by
    by_cases hk : k' = k
    · simp [substVDict, ValDict.lookup, hk]
    · simp [substVDict, ValDict.lookup, hk, substVDict_lookup ctx tl k]

lemma substVList_toList (ctx : Val) : ∀ xs : ValList,
    (substVList ctx xs).toList = xs.toList.map (substV ctx)
  | .nil => rfl
  | .cons v tl => by
    simp [substVList, ValList.toList, substVList_toList ctx tl]

/-- Claim C7: template substitution (i) replaces a placeholder token whose
(stripped) dotted path resolves to a non-`None` value by the string form of
that value and keeps an unresolved token verbatim (`templateReplacement`),
continuing the scan after the token, (ii) recurses through dicts per value
and lists per element, (iii) leaves non-string scalars unchanged, and (iv)
on the spec's example yields `"Hi Ana, due (task.due_date placeholder)"`. -/
theorem c7_template_substitution (ctx : Val) :
    (∀ (p n r : List Char), lbrace ∉ p → n ≠ [] → rbrace ∉ n →
      substStr ctx (String.mk (p ++ lbrace :: lbrace :: (n ++ rbrace :: rbrace :: r))) =
        String.mk (p ++ templateReplacement ctx n ++ reSubTemplates ctx r)) ∧
    (∀ kvs k, (substVDict ctx kvs).lookup k = (kvs.lookup k).map (substV ctx)) ∧
    (∀ xs, (substVList ctx xs).toList = xs.toList.map (substV ctx)) ∧
    (∀ i, substV ctx (Val.int i) = Val.int i) ∧
    (∀ b, substV ctx (Val.bool b) = Val.bool b) ∧
    substV ctx Val.none = Val.none ∧
    substStr
      (Val.dict (ValDict.ofList
        [("contact", Val.dict (ValDict.ofList [("name", Val.str "Ana")])),
         ("task", Val.dict ValDict.nil)]))
      "Hi \x7b\x7bcontact.name\x7d\x7d, due \x7b\x7btask.due_date\x7d\x7d"
      = "Hi Ana, due \x7b\x7btask.due_date\x7d\x7d" := by
  refine ⟨?_, ?_, ?_, fun i => rfl, fun b => rfl, rfl, by decide⟩
  · intro p n r hp hn hnr
    unfold substStr reSubTemplates
    exact congrArg String.mk (reSubGo_token ctx n r hn hnr p _ hp (Nat.le_refl _))
  · exact fun kvs k => substVDict_lookup ctx kvs k
  · exact fun xs => substVList_toList ctx xs

/-- Witness for C7: instantiating the token clause on the spec's example
string (prefix `"Hi "`, path `contact.name`, remainder containing the
unresolved `task.due_date` token) yields the substituted string. -/
theorem c7_template_substitution_witness :
    substStr
      (Val.dict (ValDict.ofList
        [("contact", Val.dict (ValDict.ofList [("name", Val.str "Ana")])),
         ("task", Val.dict ValDict.nil)]))
      (String.mk ("Hi ".data ++ lbrace :: lbrace ::
        ("contact.name".data ++ rbrace :: rbrace :: ", due \x7b\x7btask.due_date\x7d\x7d".data)))
      = "Hi Ana, due \x7b\x7btask.due_date\x7d\x7d" := by
  exact ((c7_template_substitution
      (Val.dict (ValDict.ofList
        [("contact", Val.dict (ValDict.ofList [("name", Val.str "Ana")])),
         ("task", Val.dict ValDict.nil)]))).1
    "Hi ".data "contact.name".data ", due \x7b\x7btask.due_date\x7d\x7d".data
    (by decide) (by decide) (by decide)).trans (by decide)

end WorkflowEngine
